import Mathlib

/-!
Verification development for the medieval village simulation
(`village_game.py` and `convert_recipes.py`).

The Python code is shallowly embedded as follows.

* Quantities that Python stores in floats are modelled as exact rationals
  (`ℚ`); Python integers are modelled as `ℤ` (arbitrary precision in both).
* A Python `dict` is modelled as an association list together with
  `lookupKey` (first match, as dict keys are unique) and `setKey`
  (update the first binding in place, append when absent — exactly the
  insertion-order semantics of a Python dict assignment).
* An `Inventory` is identified with its observable content
  `String → ℚ`: `items.get(item, 0)` is plain application.  The
  `defaultdict` detail that a failed `remove` may materialise a zero
  entry, and that `remove` deletes an entry that reaches exactly zero,
  is invisible through `get`/`has` and is therefore not represented.
* YAML documents are modelled structurally; a file that is missing or
  malformed (where `safe_load_yaml` returns `{}`) is an `Option` that
  is `none`.  A field that a record may omit is an `Option` field.
-/

/-- Association-list lookup: Python `d[k]` / `k in d` (first binding wins,
which coincides with dict access since dict keys are unique). -/
def lookupKey {α : Type} : List (String × α) → String → Option α
  | [], _ => none
  | (k, v) :: rest, key => if k = key then some v else lookupKey rest key

/-- Association-list update: Python `d[k] = v`.  Replaces the first binding
of `k` in place; appends at the end when `k` is absent (dict insertion
order). -/
def setKey {α : Type} : List (String × α) → String → α → List (String × α)
  | [], key, v => [(key, v)]
  | (k, w) :: rest, key, v =>
      if k = key then (key, v) :: rest else (k, w) :: setKey rest key v

/-- The keys of an association list are pairwise distinct — an invariant of
every Python dict. -/
def nodupKeys {α : Type} (l : List (String × α)) : Prop :=
  (l.map Prod.fst).Nodup

instance {α : Type} (l : List (String × α)) : Decidable (nodupKeys l) := by
  unfold nodupKeys; infer_instance

/-- Total quantity an association list of goods assigns to good `g`
(`0` when absent; a sum in general, which under `nodupKeys` is just the
unique binding). -/
def sumFor (l : List (String × ℚ)) (g : String) : ℚ :=
  (l.map (fun p => if p.1 = g then p.2 else 0)).sum

/-- Inventory state, identified with its observable content
(`items.get(g, 0)`). -/
abbrev Inventory : Type := String → ℚ

/-- `Inventory.add`: `self.items[item] += amount`. -/
def Inventory.add (inv : Inventory) (item : String) (amount : ℚ) : Inventory :=
  fun g => if g = item then inv g + amount else inv g

/-- `Inventory.remove`: removes `amount` when the current quantity is at
least `amount`, otherwise leaves the inventory unchanged.  Returns the new
inventory and the success boolean. -/
def Inventory.remove (inv : Inventory) (item : String) (amount : ℚ) : Inventory × Bool :=
  if inv item ≥ amount then
    (fun g => if g = item then inv g - amount else inv g, true)
  else (inv, false)

/-- `Inventory.has`: `self.items.get(item, 0) >= amount`. -/
def Inventory.has (inv : Inventory) (item : String) (amount : ℚ) : Bool :=
  decide (inv item ≥ amount)

/-- `Inventory.get`: `self.items.get(item, 0)`. -/
def Inventory.get (inv : Inventory) (item : String) : ℚ := inv item

/-- `all(self.village.inventory.has(item, amount) for item, amount in m.items())`. -/
def hasAll (inv : Inventory) (l : List (String × ℚ)) : Bool :=
  l.all (fun p => inv.has p.1 p.2)

/-- Iterated `inventory.remove` over a mapping, discarding the success
flags, exactly as the consume loops in `build_facility` and `run_recipe`
do. -/
def removeAll (inv : Inventory) (l : List (String × ℚ)) : Inventory :=
  l.foldl (fun acc p => (acc.remove p.1 p.2).1) inv

/-- Iterated `inventory.add` over a mapping. -/
def addAll (inv : Inventory) (l : List (String × ℚ)) : Inventory :=
  l.foldl (fun acc p => acc.add p.1 p.2) inv

/-- The part of a goods-catalog record that the engine reads:
`item.get("gather_rate", 0)`.  `none` models an absent key. -/
structure Good where
  gather_rate : Option ℚ
deriving DecidableEq

/-- A facility definition from the compound-goods catalog; every field is
read with a `.get(..., default)`, so each is optional. -/
structure FacilityDef where
  inputs : Option (List (String × ℚ))
  capacity : Option ℤ
  enables_recipes : Option (List String)
deriving DecidableEq

/-- A built facility (the runtime `Facility` dataclass). -/
structure Facility where
  facility_id : String
  capacity : ℤ
  workers_assigned : ℤ
  enabled_recipes : List String
deriving DecidableEq

/-- `Facility.can_work`: `self.workers_assigned > 0`. -/
def Facility.can_work (f : Facility) : Bool :=
  decide (f.workers_assigned > 0)

/-- A normalized recipe as stored by `load_game_data`: all nine fields are
present.  `facility` is `none` when the record had no facility (Python
`None`); `cycle_time_minutes` is `none` when the record carried an explicit
null (the loader default for an absent key is `some 60`). -/
structure Recipe where
  facility : Option String
  inputs : List (String × ℚ)
  outputs : List (String × ℚ)
  byproducts : List (String × ℚ)
  cycle_time_minutes : Option ℤ
  workers_required : ℤ
  skill_used : String
  min_skill : ℤ
  waste_chance : ℚ
deriving DecidableEq

/-- A raw recipe record as it sits in `recipes.yaml` before normalization.
`none` models an absent key; for `cycle_time_minutes` the outer `Option`
is key presence and the inner one distinguishes an explicit null. -/
structure RawRecipe where
  id : Option String
  facility : Option String
  inputs : Option (List (String × ℚ))
  outputs : Option (List (String × ℚ))
  byproducts : Option (List (String × ℚ))
  cycle_time_minutes : Option (Option ℤ)
  workers_required : Option ℤ
  skill_used : Option String
  min_skill : Option ℤ
  waste_chance : Option ℚ
deriving DecidableEq

/-- The whole game state (the `Village` dataclass; `compound_goods` is
split into its three category keys). -/
structure Village where
  day : ℤ
  population : ℤ
  idle_workers : ℤ
  inventory : Inventory
  facilities : List (String × Facility)
  raw_goods : List (String × Good)
  produced_goods : List (String × Good)
  compound_facilities : List (String × FacilityDef)
  compound_fixtures : List (String × FacilityDef)
  compound_equipment : List (String × FacilityDef)
  recipes : List (String × Recipe)

/-- `get_all_goods` lookup: `{**raw_goods, **produced_goods}` — a produced
good overrides a raw good with the same identifier. -/
def get_all_goods (v : Village) (resource : String) : Option Good :=
  match lookupKey v.produced_goods resource with
  | some item => some item
  | none => lookupKey v.raw_goods resource

/-- `GameEngine.gather_resources`.  Returns the updated village and the
amount gathered. -/
def gather_resources (v : Village) (resource : String) (workers : ℤ) :
    Village × ℚ :=
  match get_all_goods v resource with
  | none => (v, 0)
  | some item =>
    let gather_rate := item.gather_rate.getD 0
    if gather_rate = 0 then (v, 0)
    else
      let base_amount : ℚ := (workers : ℚ) * (gather_rate / 100) * 10
      ({ v with inventory := v.inventory.add resource base_amount },
        base_amount)

/-- `GameEngine.build_facility`.  Returns the updated village and the
success boolean. -/
def build_facility (v : Village) (facility_id : String) : Village × Bool :=
  match lookupKey v.compound_facilities facility_id with
  | none => (v, false)
  | some facility_data =>
    if (lookupKey v.facilities facility_id).isSome then (v, false)
    else
      let inputs := facility_data.inputs.getD []
      if hasAll v.inventory inputs then
        let capacity := facility_data.capacity.getD 1
        let enabled := facility_data.enables_recipes.getD []
        ({ v with
            inventory := removeAll v.inventory inputs,
            facilities := setKey v.facilities facility_id
              ⟨facility_id, capacity, 0, enabled⟩ }, true)
      else (v, false)

/-- `GameEngine.assign_worker`. -/
def assign_worker (v : Village) (facility_id : String) (workers : ℤ) :
    Village × Bool :=
  match lookupKey v.facilities facility_id with
  | none => (v, false)
  | some facility =>
    if v.idle_workers < workers then (v, false)
    else if facility.workers_assigned + workers > facility.capacity then
      (v, false)
    else
      ({ v with
          facilities := setKey v.facilities facility_id
            { facility with
                workers_assigned := facility.workers_assigned + workers },
          idle_workers := v.idle_workers - workers }, true)

/-- `GameEngine.unassign_worker`. -/
def unassign_worker (v : Village) (facility_id : String) (workers : ℤ) :
    Village × Bool :=
  match lookupKey v.facilities facility_id with
  | none => (v, false)
  | some facility =>
    if facility.workers_assigned < workers then (v, false)
    else
      ({ v with
          facilities := setKey v.facilities facility_id
            { facility with
                workers_assigned := facility.workers_assigned - workers },
          idle_workers := v.idle_workers + workers }, true)

/-- The `for _ in range(times)` loop body of `run_recipe`: each iteration
checks all inputs, stops at the first iteration whose inputs are
insufficient, and otherwise consumes the inputs and adds outputs and
byproducts.  Returns the final inventory and the number of completed
runs. -/
def runLoop (recipe : Recipe) : ℕ → Inventory → Inventory × ℕ
  | 0, inv => (inv, 0)
  | t + 1, inv =>
    if hasAll inv recipe.inputs then
      let inv3 :=
        addAll (addAll (removeAll inv recipe.inputs) recipe.outputs)
          recipe.byproducts
      let r := runLoop recipe t inv3
      (r.1, r.2 + 1)
    else (inv, 0)

/-- `GameEngine.run_recipe`.  `range(times)` is empty for a non-positive
`times`, hence the loop runs `times.toNat` iterations.  Returns the updated
village and the count of successful runs. -/
def run_recipe (v : Village) (recipe_id facility_id : String) (times : ℤ) :
    Village × ℕ :=
  match lookupKey v.recipes recipe_id with
  | none => (v, 0)
  | some recipe =>
    match lookupKey v.facilities facility_id with
    | none => (v, 0)
    | some facility =>
      if recipe.facility = some facility_id then
        if facility.can_work then
          let r := runLoop recipe times.toNat v.inventory
          ({ v with inventory := r.1 }, r.2)
        else (v, 0)
      else (v, 0)

/-- The cycle time `advance_day` actually divides by:
`recipe.get("cycle_time_minutes", 60) or 60`.  The structural field is
always present after normalization, so the `or 60` catches a null and a
zero value. -/
def effectiveCycle (recipe : Recipe) : ℤ :=
  match recipe.cycle_time_minutes with
  | none => 60
  | some c => if c = 0 then 60 else c

/-- The facility loop of `GameEngine.advance_day`: for every built
facility with workers, every recipe bound to it runs
`workers_assigned * max(1, 480 // cycle)` times. -/
def advanceProduction (v : Village) : Village :=
  v.facilities.foldl (fun acc p =>
    if p.2.workers_assigned > 0 then
      v.recipes.foldl (fun acc2 q =>
        if q.2.facility = some p.1 then
          let recipe_cycle := effectiveCycle q.2
          let runs_per_worker := max 1 (Int.fdiv (8 * 60) recipe_cycle)
          let runs := p.2.workers_assigned * runs_per_worker
          if runs > 0 then (run_recipe acc2 q.1 p.1 runs).1 else acc2
        else acc2) acc
    else acc) v

/-- `GameEngine.advance_day`: auto-run production, then increment the day
counter. -/
def advance_day (v : Village) : Village :=
  let v2 := advanceProduction v
  { v2 with day := v2.day + 1 }

/-- Day advancement as the specification words it: every pair of a built
facility with assigned workers and a recipe whose facility field equals
that facility's id receives exactly
`workers_assigned * max(1, floor(480 / cycle_time_minutes))` attempted
runs of the run-recipe execution, and afterwards the day is incremented
by one. -/
def advanceProductionSpec (v : Village) : Village :=
  (v.facilities.filter (fun p => p.2.workers_assigned > 0)).foldl
    (fun acc p =>
      (v.recipes.filter (fun q => q.2.facility = some p.1)).foldl
        (fun acc2 q =>
          (run_recipe acc2 q.1 p.1
            (p.2.workers_assigned *
              max 1 (Int.fdiv 480 (q.2.cycle_time_minutes.getD 60)))).1)
        acc) v

/-- Day advancement as worded by the specification: the production fold
over eligible facility/recipe pairs, then the day increment. -/
def advanceDaySpec (v : Village) : Village :=
  let v2 := advanceProductionSpec v
  { v2 with day := v2.day + 1 }

/-- Normalization of one raw recipe record, exactly the dictionary the
loader builds: every absent key is replaced by its documented default
(`inputs`/`outputs`/`byproducts` empty, `cycle_time_minutes` 60,
`workers_required` 1, `skill_used` empty, `min_skill` 0,
`waste_chance` 0.0). -/
def normalizeRecipe (r : RawRecipe) : Recipe :=
  { facility := r.facility,
    inputs := r.inputs.getD [],
    outputs := r.outputs.getD [],
    byproducts := r.byproducts.getD [],
    cycle_time_minutes := r.cycle_time_minutes.getD (some 60),
    workers_required := r.workers_required.getD 1,
    skill_used := r.skill_used.getD "",
    min_skill := r.min_skill.getD 0,
    waste_chance := r.waste_chance.getD 0 }

/-- The recipe-list-to-dict conversion in `load_game_data`: records
without a usable id are skipped, the rest are normalized and inserted
under their id. -/
def loadRecipes (l : List RawRecipe) : List (String × Recipe) :=
  l.foldl (fun acc r =>
    match r.id with
    | none => acc
    | some i => if i = "" then acc else setKey acc i (normalizeRecipe r)) []

/-- A goods document: `data.get("goods", {})`. -/
structure GoodsDoc where
  goods : Option (List (String × Good))
deriving DecidableEq

/-- A compound document carrying one category key
(`facilities` / `fixtures` / `equipment`). -/
structure CompoundDoc where
  entries : Option (List (String × FacilityDef))
deriving DecidableEq

/-- A recipes document: `data.get("recipes", [])`. -/
structure RecipesDoc where
  recipes : Option (List RawRecipe)

/-- The six YAML files a data directory may contain.  A component is
`none` when the file is missing or malformed — the cases in which
`safe_load_yaml` logs and returns `{}`. -/
structure DataDir where
  raw_goods_yaml : Option GoodsDoc
  produced_goods_yaml : Option GoodsDoc
  facilities_yaml : Option CompoundDoc
  fixtures_yaml : Option CompoundDoc
  equipment_yaml : Option CompoundDoc
  recipes_yaml : Option RecipesDoc

/-- A data directory with no loadable file at all. -/
def emptyDataDir : DataDir :=
  { raw_goods_yaml := none, produced_goods_yaml := none,
    facilities_yaml := none, fixtures_yaml := none,
    equipment_yaml := none, recipes_yaml := none }

/-- `GameEngine.__init__` followed by `load_game_data`: a fresh `Village`
(day 1, population 5, idle_workers 5, empty inventory, no built
facilities) whose static data comes from the given directory, with every
missing piece replaced by an empty structure. -/
def load_game_data (d : DataDir) : Village :=
  { day := 1, population := 5, idle_workers := 5,
    inventory := fun _ => 0,
    facilities := [],
    raw_goods := (d.raw_goods_yaml.bind GoodsDoc.goods).getD [],
    produced_goods := (d.produced_goods_yaml.bind GoodsDoc.goods).getD [],
    compound_facilities := (d.facilities_yaml.bind CompoundDoc.entries).getD [],
    compound_fixtures := (d.fixtures_yaml.bind CompoundDoc.entries).getD [],
    compound_equipment := (d.equipment_yaml.bind CompoundDoc.entries).getD [],
    recipes := loadRecipes ((d.recipes_yaml.bind RecipesDoc.recipes).getD []) }

/-- A legacy-schema recipe record as `convert_recipes.py` reads it;
`none` models an absent key. -/
structure LegacyRecipe where
  facility : Option String
  inputs : Option (List (String × ℚ))
  outputs : Option (List (String × ℚ))
  byproducts : Option (List (String × ℚ))
  cycle_time_s : Option ℚ
  cycle_time_minutes : Option ℤ
  labor : Option ℤ
  workers_required : Option ℤ
  skill_used : Option String
  skill : Option String
  min_skill : Option ℤ
  waste_chance : Option ℚ
deriving DecidableEq

/-- A legacy record with every optional field omitted. -/
def emptyLegacy : LegacyRecipe :=
  { facility := none, inputs := none, outputs := none, byproducts := none,
    cycle_time_s := none, cycle_time_minutes := none, labor := none,
    workers_required := none, skill_used := none, skill := none,
    min_skill := none, waste_chance := none }

/-- `convert_amounts`: scales every quantity by the good's `per_unit_kg`
factor, using factor 1 and recording a warning when the good is unknown.
Returns the converted mapping and the warnings, in iteration order. -/
def convert_amounts :
    List (String × ℚ) → List (String × ℚ) → List (String × ℚ) × List String
  | [], _ => ([], [])
  | (item, amt) :: rest, per_kg_map =>
    let r := convert_amounts rest per_kg_map
    match lookupKey per_kg_map item with
    | none => ((item, amt * 1) :: r.1, ("Unknown good " ++ item) :: r.2)
    | some per => ((item, amt * per) :: r.1, r.2)

/-- `convert_recipe`: builds the current-schema record from a legacy one.
All ten keys are emitted; `cycle_time_s` (seconds) is converted by
rounding up to whole minutes, `labor` takes precedence over
`workers_required`, and `skill_used` over `skill`.  Returns the record and
the accumulated scaling warnings. -/
def convert_recipe (old_id : String) (old : LegacyRecipe)
    (per_kg_map : List (String × ℚ)) : RawRecipe × List String :=
  let ci := convert_amounts (old.inputs.getD []) per_kg_map
  let co := convert_amounts (old.outputs.getD []) per_kg_map
  let cb := convert_amounts (old.byproducts.getD []) per_kg_map
  ({ id := some old_id,
     facility := old.facility,
     inputs := some ci.1,
     outputs := some co.1,
     byproducts := some cb.1,
     cycle_time_minutes := some (some (match old.cycle_time_s with
       | some s => ⌈s / 60⌉
       | none => old.cycle_time_minutes.getD 60)),
     workers_required := some ((old.labor.or old.workers_required).getD 1),
     skill_used := some ((old.skill_used.or old.skill).getD ""),
     min_skill := some (old.min_skill.getD 0),
     waste_chance := some (old.waste_chance.getD 0) },
   ci.2 ++ co.2 ++ cb.2)

/-- One engine operation, with the arguments a caller supplies. -/
inductive Op : Type
  | gather (resource : String) (workers : ℤ)
  | build (facility_id : String)
  | assign (facility_id : String) (workers : ℤ)
  | unassign (facility_id : String) (workers : ℤ)
  | runRec (recipe_id facility_id : String) (times : ℤ)
  | advanceDay

/-- Apply one operation to the village, discarding the returned
success/quantity signal. -/
def applyOp (v : Village) : Op → Village
  | Op.gather resource workers => (gather_resources v resource workers).1
  | Op.build facility_id => (build_facility v facility_id).1
  | Op.assign facility_id workers => (assign_worker v facility_id workers).1
  | Op.unassign facility_id workers => (unassign_worker v facility_id workers).1
  | Op.runRec recipe_id facility_id times =>
      (run_recipe v recipe_id facility_id times).1
  | Op.advanceDay => advance_day v

/-- Apply a sequence of operations left to right. -/
def applyOps (v : Village) : List Op → Village
  | [] => v
  | op :: rest => applyOps (applyOp v op) rest

/-- Total workers assigned across all built facilities. -/
def sumWorkers (l : List (String × Facility)) : ℤ :=
  (l.map (fun p => p.2.workers_assigned)).sum

/-- Worker conservation: idle workers plus assigned workers equals the
population. -/
def conserved (v : Village) : Prop :=
  v.idle_workers + sumWorkers v.facilities = v.population

/-- Every built facility has a worker assignment between 0 and its
capacity. -/
def workersInBounds (v : Village) : Prop :=
  ∀ p ∈ v.facilities,
    0 ≤ p.2.workers_assigned ∧ p.2.workers_assigned ≤ p.2.capacity

/-- An operation whose worker-count argument (when it has one) is
nonnegative. -/
def opNonneg : Op → Prop
  | Op.assign _ workers => 0 ≤ workers
  | Op.unassign _ workers => 0 ≤ workers
  | _ => True

/-- Every facility definition in the compound catalog has a nonnegative
(defaulted) capacity. -/
def catalogCapsOK (v : Village) : Prop :=
  ∀ p ∈ v.compound_facilities, 0 ≤ p.2.capacity.getD 1

/-- Two villages agree on everything except possibly the inventory. -/
def sameExceptInv (a b : Village) : Prop :=
  a.day = b.day ∧ a.population = b.population ∧
  a.idle_workers = b.idle_workers ∧ a.facilities = b.facilities ∧
  a.raw_goods = b.raw_goods ∧ a.produced_goods = b.produced_goods ∧
  a.compound_facilities = b.compound_facilities ∧
  a.compound_fixtures = b.compound_fixtures ∧
  a.compound_equipment = b.compound_equipment ∧ a.recipes = b.recipes

/-- Net quantity of good `g` one completed run of `recipe` adds to the
inventory: outputs plus byproducts minus inputs. -/
def netFor (recipe : Recipe) (g : String) : ℚ :=
  sumFor recipe.outputs g + sumFor recipe.byproducts g -
    sumFor recipe.inputs g

/-- A sample recipe: two logs become four lumber and one sawdust at the
sawmill, one hour per run. -/
def recipe0 : Recipe :=
  { facility := some "sawmill", inputs := [("logs", 2)],
    outputs := [("lumber", 4)], byproducts := [("sawdust", 1)],
    cycle_time_minutes := some 60, workers_required := 1,
    skill_used := "", min_skill := 0, waste_chance := 0 }

/-- A built sawmill with one of two worker slots filled. -/
def fac0 : Facility :=
  { facility_id := "sawmill", capacity := 2, workers_assigned := 1,
    enabled_recipes := ["saw"] }

/-- A starting inventory holding ten logs. -/
def inv0 : Inventory := fun g => if g = "logs" then 10 else 0

/-- A sample village: ten logs, a built sawmill with one worker, one
sawing recipe, a gatherable raw good, and one buildable hut in the
catalog. -/
def v0 : Village :=
  { day := 1, population := 5, idle_workers := 4, inventory := inv0,
    facilities := [("sawmill", fac0)],
    raw_goods := [("logs", { gather_rate := some 100 })],
    produced_goods := [],
    compound_facilities :=
      [("hut", { inputs := some [("logs", 5)], capacity := some 3,
                 enables_recipes := some ["saw"] })],
    compound_fixtures := [], compound_equipment := [],
    recipes := [("saw", recipe0)] }

/-- A village whose only good carries a negative gather rate. -/
def cursedVillage : Village :=
  { v0 with raw_goods := [("cursed", { gather_rate := some (-50) })] }

/-- A raw recipe record carrying only an id. -/
def rawOnlyId : RawRecipe :=
  { id := some "r1", facility := none, inputs := none, outputs := none,
    byproducts := none, cycle_time_minutes := none,
    workers_required := none, skill_used := none, min_skill := none,
    waste_chance := none }

/-- A sample legacy record: a 90-second cycle, labor 3, one known and
one unknown input good. -/
def legacyMill : LegacyRecipe :=
  { facility := none, inputs := some [("logs", 2), ("mystery", 4)],
    outputs := none, byproducts := none, cycle_time_s := some 90,
    cycle_time_minutes := none, labor := some 3, workers_required := none,
    skill_used := none, skill := none, min_skill := none,
    waste_chance := none }

instance (v : Village) : Decidable (conserved v) := by
  unfold conserved; infer_instance

instance (v : Village) : Decidable (workersInBounds v) := by
  unfold workersInBounds; infer_instance

instance (v : Village) : Decidable (catalogCapsOK v) := by
  unfold catalogCapsOK; infer_instance

instance (op : Op) : Decidable (opNonneg op) :=
  match op with
  | Op.gather _ _ => isTrue trivial
  | Op.build _ => isTrue trivial
  | Op.assign _ w => inferInstanceAs (Decidable (0 ≤ w))
  | Op.unassign _ w => inferInstanceAs (Decidable (0 ≤ w))
  | Op.runRec _ _ _ => isTrue trivial
  | Op.advanceDay => isTrue trivial

theorem lookupKey_setKey_self {α : Type} (l : List (String × α))
    (k : String) (x : α) : lookupKey (setKey l k x) k = some x := by
  induction l with
  | nil => simp [setKey, lookupKey]
  | cons p rest ih =>
    by_cases h : p.1 = k
    · simp [setKey, lookupKey, h]
    · obtain ⟨k0, w⟩ := p
      simp only at h
      simp [setKey, lookupKey, h, ih]

theorem setKey_absent {α : Type} (l : List (String × α)) (k : String)
    (x : α) (h : lookupKey l k = none) : setKey l k x = l ++ [(k, x)] := by
  induction l with
  | nil => simp [setKey]
  | cons p rest ih =>
    obtain ⟨k0, w⟩ := p
    by_cases hk : k0 = k
    · simp [lookupKey, hk] at h
    · simp only [lookupKey, hk, if_false] at h
      simp [setKey, hk, ih h]

theorem sumWorkers_append (l : List (String × Facility)) (k : String)
    (f : Facility) :
    sumWorkers (l ++ [(k, f)]) = sumWorkers l + f.workers_assigned := by
  simp [sumWorkers]

theorem sumWorkers_setKey (l : List (String × Facility)) (k : String)
    (f f2 : Facility) (h : lookupKey l k = some f) :
    sumWorkers (setKey l k f2) =
      sumWorkers l - f.workers_assigned + f2.workers_assigned := by
  induction l with
  | nil => simp [lookupKey] at h
  | cons p rest ih =>
    obtain ⟨k0, w⟩ := p
    by_cases hk : k0 = k
    · simp only [lookupKey, hk, if_true] at h
      cases h
      simp [setKey, hk, sumWorkers]
      ring
    · simp only [lookupKey, hk, if_false] at h
      simp only [setKey, hk, if_false]
      simp only [sumWorkers, List.map_cons, List.sum_cons] at *
      rw [ih h]
      ring

theorem addAll_apply (l : List (String × ℚ)) (inv : Inventory)
    (g : String) : addAll inv l g = inv g + sumFor l g := by
  induction l generalizing inv with
  | nil => simp [addAll, sumFor]
  | cons p rest ih =>
    obtain ⟨k, a⟩ := p
    simp only [addAll, List.foldl_cons] at *
    rw [ih]
    simp only [sumFor, List.map_cons, List.sum_cons, Inventory.add]
    by_cases h : g = k
    · subst h; simp
      ring
    · have h2 : ¬ k = g := fun he => h he.symm
      simp [h, h2]

theorem removeAll_apply (l : List (String × ℚ)) (inv : Inventory)
    (hnd : nodupKeys l) (hall : hasAll inv l = true) (g : String) :
    removeAll inv l g = inv g - sumFor l g := by
  induction l generalizing inv with
  | nil => simp [removeAll, sumFor]
  | cons p rest ih =>
    obtain ⟨k, a⟩ := p
    simp only [nodupKeys, List.map_cons, List.nodup_cons] at hnd
    obtain ⟨hnotin, hndrest⟩ := hnd
    simp only [hasAll, List.all_cons, Bool.and_eq_true] at hall
    obtain ⟨hka, hrest⟩ := hall
    have hk : inv k ≥ a := by
      simpa [Inventory.has] using hka
    have hrem : (inv.remove k a).1 =
        fun g2 => if g2 = k then inv g2 - a else inv g2 := by
      simp [Inventory.remove, hk]
    have hall2 : hasAll (inv.remove k a).1 rest = true := by
      simp only [hasAll, List.all_eq_true] at hrest ⊢
      intro q hq
      have hne : q.1 ≠ k := by
        intro he
        exact hnotin (he ▸ List.mem_map_of_mem Prod.fst hq)
      have hop := hrest q hq
      rw [hrem]
      simpa [Inventory.has, hne] using hop
    simp only [removeAll, List.foldl_cons] at *
    rw [ih (inv.remove k a).1 hndrest hall2, hrem]
    simp only [sumFor, List.map_cons, List.sum_cons]
    by_cases h : g = k
    · subst h; simp
      ring
    · have h2 : ¬ k = g := fun he => h he.symm
      simp [h, h2]

theorem runLoop_spec (recipe : Recipe) (hnd : nodupKeys recipe.inputs) :
    ∀ (t : ℕ) (inv : Inventory),
      (∀ g, (runLoop recipe t inv).1 g =
          inv g + ((runLoop recipe t inv).2 : ℚ) * netFor recipe g) ∧
      (runLoop recipe t inv).2 ≤ t ∧
      ((runLoop recipe t inv).2 < t →
        hasAll (runLoop recipe t inv).1 recipe.inputs = false) := by
  intro t
  induction t with
  | zero =>
    intro inv
    refine ⟨fun g => by simp [runLoop], by simp [runLoop], ?_⟩
    intro h
    simp [runLoop] at h
  | succ t ih =>
    intro inv
    by_cases hhas : hasAll inv recipe.inputs = true
    · have hstep : ∀ g,
          addAll (addAll (removeAll inv recipe.inputs) recipe.outputs)
            recipe.byproducts g = inv g + netFor recipe g := by
        intro g
        rw [addAll_apply, addAll_apply, removeAll_apply _ _ hnd hhas]
        simp [netFor]
        ring
      set inv3 :=
        addAll (addAll (removeAll inv recipe.inputs) recipe.outputs)
          recipe.byproducts with hinv3
      obtain ⟨ihg, ihle, ihstop⟩ := ih inv3
      have hunfold : runLoop recipe (t + 1) inv =
          ((runLoop recipe t inv3).1, (runLoop recipe t inv3).2 + 1) := by
        simp [runLoop, hhas, hinv3]
      refine ⟨?_, ?_, ?_⟩
      · intro g
        rw [hunfold]
        simp only
        rw [ihg g, hstep g]
        push_cast
        ring
      · rw [hunfold]
        simpa using ihle
      · rw [hunfold]
        intro hlt
        simp only at hlt ⊢
        exact ihstop (by omega)
    · have hf : hasAll inv recipe.inputs = false := by
        simpa using hhas
      have hunfold : runLoop recipe (t + 1) inv = (inv, 0) := by
        simp [runLoop, hf]
      refine ⟨fun g => by rw [hunfold]; simp, by rw [hunfold]; simp, ?_⟩
      intro _
      rw [hunfold]
      exact hf

theorem sameExceptInv_refl (v : Village) : sameExceptInv v v := by
  simp [sameExceptInv]

theorem sameExceptInv_trans {a b c : Village} (h1 : sameExceptInv a b)
    (h2 : sameExceptInv b c) : sameExceptInv a c := by
  obtain ⟨x1, x2, x3, x4, x5, x6, x7, x8, x9, x10⟩ := h1
  obtain ⟨y1, y2, y3, y4, y5, y6, y7, y8, y9, y10⟩ := h2
  exact ⟨x1.trans y1, x2.trans y2, x3.trans y3, x4.trans y4, x5.trans y5,
    x6.trans y6, x7.trans y7, x8.trans y8, x9.trans y9, x10.trans y10⟩

theorem run_recipe_shape (v : Village) (rid fid : String) (times : ℤ) :
    sameExceptInv (run_recipe v rid fid times).1 v := by
  unfold run_recipe
  cases lookupKey v.recipes rid with
  | none => exact sameExceptInv_refl v
  | some recipe =>
    cases lookupKey v.facilities fid with
    | none => exact sameExceptInv_refl v
    | some facility =>
      by_cases hmatch : recipe.facility = some fid
      · by_cases hwork : facility.can_work = true
        · simp only [hmatch, if_true, hwork]
          exact ⟨rfl, rfl, rfl, rfl, rfl, rfl, rfl, rfl, rfl, rfl⟩
        · have : facility.can_work = false := by simpa using hwork
          simp only [hmatch, if_true, this, Bool.false_eq_true, if_false]
          exact sameExceptInv_refl v
      · simp only [hmatch, if_false]
        exact sameExceptInv_refl v

theorem foldl_shape {α : Type} (f : Village → α → Village) (l : List α)
    (hstep : ∀ acc x, sameExceptInv (f acc x) acc) :
    ∀ acc, sameExceptInv (l.foldl f acc) acc := by
  induction l with
  | nil => intro acc; exact sameExceptInv_refl acc
  | cons x rest ih =>
    intro acc
    simp only [List.foldl_cons]
    exact sameExceptInv_trans (ih (f acc x)) (hstep acc x)

theorem advance_day_shape (v : Village) :
    (advance_day v).day = v.day + 1 ∧
    (advance_day v).population = v.population ∧
    (advance_day v).idle_workers = v.idle_workers ∧
    (advance_day v).facilities = v.facilities ∧
    (advance_day v).raw_goods = v.raw_goods ∧
    (advance_day v).produced_goods = v.produced_goods ∧
    (advance_day v).compound_facilities = v.compound_facilities ∧
    (advance_day v).compound_fixtures = v.compound_fixtures ∧
    (advance_day v).compound_equipment = v.compound_equipment ∧
    (advance_day v).recipes = v.recipes := by
  have houter : sameExceptInv (advanceProduction v) v := by
    unfold advanceProduction
    apply foldl_shape
    intro acc p
    by_cases hw : p.2.workers_assigned > 0
    · simp only [hw, if_true]
      apply foldl_shape
      intro acc2 q
      by_cases hm : q.2.facility = some p.1
      · simp only [hm, if_true]
        by_cases hr : p.2.workers_assigned *
            max 1 (Int.fdiv (8 * 60) (effectiveCycle q.2)) > 0
        · simp only [hr, if_true]
          exact run_recipe_shape acc2 q.1 p.1 _
        · simp only [hr, if_false]
          exact sameExceptInv_refl acc2
      · simp only [hm, if_false]
        exact sameExceptInv_refl acc2
    · simp only [hw, if_false]
      exact sameExceptInv_refl acc
  obtain ⟨x1, x2, x3, x4, x5, x6, x7, x8, x9, x10⟩ := houter
  exact ⟨by show (advanceProduction v).day + 1 = v.day + 1; rw [x1],
    x2, x3, x4, x5, x6, x7, x8, x9, x10⟩

/-- C8: for every good `g` and amount `a`, `inventory.remove(g, a)`
succeeds if and only if `inventory.get(g) >= a` held before the call; on
success `inventory.get(g)` decreases by exactly `a`, and on failure the
inventory is unchanged (a missing good reads as quantity 0, which is the
model itself). -/
theorem inventory_remove_correct (inv : Inventory) (g : String) (a : ℚ) :
    ((inv.remove g a).2 = true ↔ inv.get g ≥ a) ∧
    ((inv.remove g a).2 = true →
      (inv.remove g a).1.get g = inv.get g - a) ∧
    ((inv.remove g a).2 = false → (inv.remove g a).1 = inv) := by
  unfold Inventory.remove Inventory.get
  by_cases h : inv g ≥ a
  · simp [h]
  · simp [h]

/-- Witness for C8 at a concrete inventory: removing 3 of 10 logs
succeeds and leaves 7. -/
theorem inventory_remove_correct_witness :
    (Inventory.remove inv0 "logs" 3).2 = true ∧
    (Inventory.remove inv0 "logs" 3).1.get "logs" =
      Inventory.get inv0 "logs" - 3 :=
  ⟨(inventory_remove_correct inv0 "logs" 3).1.mpr (by decide),
   (inventory_remove_correct inv0 "logs" 3).2.1
     ((inventory_remove_correct inv0 "logs" 3).1.mpr (by decide))⟩

/-- C1 (amended): `run_recipe` returns 0 and leaves the village unchanged
when the recipe is unknown, the facility is unbuilt, the recipe is bound
to a different facility, or the facility has no workers assigned;
otherwise it performs up to `times` sequential runs, stopping at the
first run whose inputs are insufficient and keeping earlier effects, the
net inventory change is exactly `n * (outputs + byproducts - inputs)` per
good, and the returned count `n` satisfies `0 ≤ n ≤ max(times, 0)` — the
amendment: for a negative `times` the loop body never executes and `n = 0`
is returned, so the original bound `n ≤ times` fails. -/
theorem run_recipe_correct (v : Village) (rid fid : String) (times : ℤ) :
    (lookupKey v.recipes rid = none →
      run_recipe v rid fid times = (v, 0)) ∧
    (lookupKey v.facilities fid = none →
      run_recipe v rid fid times = (v, 0)) ∧
    (∀ recipe, lookupKey v.recipes rid = some recipe →
      recipe.facility ≠ some fid → run_recipe v rid fid times = (v, 0)) ∧
    (∀ facility, lookupKey v.facilities fid = some facility →
      facility.can_work = false → run_recipe v rid fid times = (v, 0)) ∧
    (∀ recipe facility, lookupKey v.recipes rid = some recipe →
      lookupKey v.facilities fid = some facility →
      recipe.facility = some fid → facility.can_work = true →
      nodupKeys recipe.inputs →
      sameExceptInv (run_recipe v rid fid times).1 v ∧
      (run_recipe v rid fid times).2 ≤ times.toNat ∧
      (∀ g, (run_recipe v rid fid times).1.inventory g =
        v.inventory g +
          ((run_recipe v rid fid times).2 : ℚ) * netFor recipe g) ∧
      ((run_recipe v rid fid times).2 < times.toNat →
        hasAll (run_recipe v rid fid times).1.inventory recipe.inputs
          = false)) := by
  refine ⟨?_, ?_, ?_, ?_, ?_⟩
  · intro h
    simp [run_recipe, h]
  · intro h
    cases hrec : lookupKey v.recipes rid <;> simp [run_recipe, hrec, h]
  · intro recipe hrec hne
    cases hfac : lookupKey v.facilities fid <;>
      simp [run_recipe, hrec, hfac, hne]
  · intro facility hfac hwork
    cases hrec : lookupKey v.recipes rid with
    | none => simp [run_recipe, hrec]
    | some recipe =>
      by_cases hm : recipe.facility = some fid <;>
        simp [run_recipe, hrec, hfac, hm, hwork]
  · intro recipe facility hrec hfac hm hwork hnd
    have hrr : run_recipe v rid fid times =
        ({ v with inventory := (runLoop recipe times.toNat v.inventory).1 },
          (runLoop recipe times.toNat v.inventory).2) := by
      simp [run_recipe, hrec, hfac, hm, hwork]
    obtain ⟨hg, hle, hstop⟩ := runLoop_spec recipe hnd times.toNat v.inventory
    refine ⟨?_, ?_, ?_, ?_⟩
    · rw [hrr]
      exact ⟨rfl, rfl, rfl, rfl, rfl, rfl, rfl, rfl, rfl, rfl⟩
    · rw [hrr]
      exact hle
    · intro g
      rw [hrr]
      exact hg g
    · rw [hrr]
      exact hstop

/-- Witness for C1 at the sample village: three attempted runs of the
sawing recipe at the worked sawmill. -/
theorem run_recipe_correct_witness :
    (run_recipe v0 "saw" "sawmill" 3).2 ≤ (3 : ℤ).toNat ∧
    (run_recipe v0 "saw" "sawmill" 3).1.inventory "logs" =
      v0.inventory "logs" +
        ((run_recipe v0 "saw" "sawmill" 3).2 : ℚ) * netFor recipe0 "logs" := by
  have h := (run_recipe_correct v0 "saw" "sawmill" 3).2.2.2.2 recipe0 fac0
    (by decide) (by decide) (by decide) (by decide) (by decide)
  exact ⟨h.2.1, h.2.2.1 "logs"⟩

/-- Counterexample for C1 as stated: with all four guards passing and
`times = -1`, the call returns 0 completed runs, and the claimed bound
`0 ≤ n ≤ times` is false because `times` is negative. -/
theorem run_recipe_negative_times_cex :
    (lookupKey v0.recipes "saw").isSome = true ∧
    (lookupKey v0.facilities "sawmill").isSome = true ∧
    recipe0.facility = some "sawmill" ∧
    fac0.can_work = true ∧
    (run_recipe v0 "saw" "sawmill" (-1)).2 = 0 ∧
    ¬ (((run_recipe v0 "saw" "sawmill" (-1)).2 : ℤ) ≤ -1) := by
  decide

/-- C6 (amended): `gather_resources` returns 0 and mutates nothing unless
the resource exists in the merged goods lookup with a nonzero
`gather_rate` (the code tests `gather_rate == 0`, not `> 0`); when the
rate is nonzero it adds exactly `workers * (gather_rate / 100) * 10` to
the inventory, returns that amount, and changes nothing else — in
particular `idle_workers` is untouched. -/
theorem gather_resources_amended (v : Village) (resource : String)
    (workers : ℤ) :
    (get_all_goods v resource = none →
      gather_resources v resource workers = (v, 0)) ∧
    (∀ item, get_all_goods v resource = some item →
      item.gather_rate.getD 0 = 0 →
      gather_resources v resource workers = (v, 0)) ∧
    (∀ item, get_all_goods v resource = some item →
      item.gather_rate.getD 0 ≠ 0 →
      (gather_resources v resource workers).2 =
        (workers : ℚ) * (item.gather_rate.getD 0 / 100) * 10 ∧
      (gather_resources v resource workers).1.inventory =
        v.inventory.add resource
          ((workers : ℚ) * (item.gather_rate.getD 0 / 100) * 10) ∧
      sameExceptInv (gather_resources v resource workers).1 v) := by
  refine ⟨?_, ?_, ?_⟩
  · intro h
    simp [gather_resources, h]
  · intro item hit hrate
    simp [gather_resources, hit, hrate]
  · intro item hit hrate
    have hg : gather_resources v resource workers =
        ({ v with inventory := (v.inventory.add resource
            ((workers : ℚ) * (item.gather_rate.getD 0 / 100) * 10)) },
          (workers : ℚ) * (item.gather_rate.getD 0 / 100) * 10) := by
      simp [gather_resources, hit, hrate]
    rw [hg]
    exact ⟨rfl, rfl, ⟨rfl, rfl, rfl, rfl, rfl, rfl, rfl, rfl, rfl, rfl⟩⟩

/-- Witness for C6, the specification's own scenario: a raw good at
gather rate 100 gathered by 5 workers adds exactly 50 units. -/
theorem gather_resources_amended_witness :
    (gather_resources v0 "logs" 5).2 = 50 ∧
    (gather_resources v0 "logs" 5).1.inventory "logs" = 60 := by
  have h := (gather_resources_amended v0 "logs" 5).2.2
    { gather_rate := some 100 } (by decide) (by norm_num)
  refine ⟨?_, ?_⟩
  · rw [h.1]
    norm_num
  · have h2 := congrFun h.2.1 "logs"
    rw [h2]
    show (if "logs" = "logs" then v0.inventory "logs" + _ else _) = 60
    rw [if_pos rfl]
    show (if "logs" = "logs" then (10 : ℚ) else 0) + _ = 60
    rw [if_pos rfl]
    norm_num

/-- Counterexample for C6 as stated: a good whose `gather_rate` is -50 is
not `> 0`, so the claim requires a zero result and no mutation, but the
code only tests `== 0` and gathers a negative amount. -/
theorem gather_rate_negative_cex :
    get_all_goods cursedVillage "cursed" =
      some { gather_rate := some (-50) } ∧
    ¬ ((0 : ℚ) < -50) ∧
    (gather_resources cursedVillage "cursed" 1).2 = -5 ∧
    (gather_resources cursedVillage "cursed" 1).1.inventory "cursed" = -5 := by
  refine ⟨by decide, by norm_num, ?_, ?_⟩
  · norm_num [gather_resources, get_all_goods, cursedVillage, v0, lookupKey,
      Inventory.add]
  · norm_num [gather_resources, get_all_goods, cursedVillage, v0, lookupKey,
      Inventory.add, inv0]
    decide

theorem lookupKey_mem {α : Type} {l : List (String × α)} {k : String}
    {x : α} (h : lookupKey l k = some x) : (k, x) ∈ l := by
  induction l with
  | nil => simp [lookupKey] at h
  | cons p rest ih =>
    obtain ⟨k0, w⟩ := p
    by_cases hk : k0 = k
    · simp only [lookupKey, hk, if_true] at h
      cases h
      subst hk
      exact List.mem_cons_self _ _
    · simp only [lookupKey, hk, if_false] at h
      exact List.mem_cons_of_mem _ (ih h)

theorem mem_setKey {α : Type} {l : List (String × α)} {k : String} {x : α}
    {p : String × α} (h : p ∈ setKey l k x) : p = (k, x) ∨ p ∈ l := by
  induction l with
  | nil => simpa [setKey] using h
  | cons q rest ih =>
    obtain ⟨k0, w⟩ := q
    by_cases hk : k0 = k
    · simp only [setKey, hk, if_true] at h
      rcases List.mem_cons.mp h with h1 | h2
      · exact Or.inl h1
      · exact Or.inr (List.mem_cons_of_mem _ h2)
    · simp only [setKey, hk, if_false] at h
      rcases List.mem_cons.mp h with h1 | h2
      · exact Or.inr (h1 ▸ List.mem_cons_self _ _)
      · rcases ih h2 with h3 | h4
        · exact Or.inl h3
        · exact Or.inr (List.mem_cons_of_mem _ h4)

theorem gather_shape (v : Village) (resource : String) (workers : ℤ) :
    sameExceptInv (gather_resources v resource workers).1 v := by
  unfold gather_resources
  cases get_all_goods v resource with
  | none => exact sameExceptInv_refl v
  | some item =>
    by_cases hr : item.gather_rate.getD 0 = 0
    · simp only [hr, if_true]
      exact sameExceptInv_refl v
    · simp only [hr, if_false]
      exact ⟨rfl, rfl, rfl, rfl, rfl, rfl, rfl, rfl, rfl, rfl⟩

theorem conserved_of_sameExceptInv {a b : Village}
    (hs : sameExceptInv a b) (h : conserved b) : conserved a := by
  unfold conserved at *
  rw [hs.2.2.1, hs.2.2.2.1, hs.2.1]
  exact h

theorem conserved_applyOp (v : Village) (op : Op) (h : conserved v) :
    conserved (applyOp v op) := by
  cases op with
  | gather resource workers =>
    exact conserved_of_sameExceptInv (gather_shape v resource workers) h
  | build fid =>
    show conserved (build_facility v fid).1
    unfold build_facility
    cases hc : lookupKey v.compound_facilities fid with
    | none => exact h
    | some fdef =>
      by_cases hb : (lookupKey v.facilities fid).isSome = true
      · simp only [hb, if_true]
        exact h
      · have hnone : lookupKey v.facilities fid = none :=
          Option.not_isSome_iff_eq_none.mp (by simpa using hb)
        simp only [hb, Bool.false_eq_true, if_false]
        by_cases hhas : hasAll v.inventory (fdef.inputs.getD []) = true
        · simp only [hhas, if_true]
          unfold conserved at *
          simp only
          rw [setKey_absent _ _ _ hnone, sumWorkers_append]
          simpa using h
        · simp only [hhas, Bool.false_eq_true, if_false]
          exact h
  | assign fid workers =>
    show conserved (assign_worker v fid workers).1
    unfold assign_worker
    cases hl : lookupKey v.facilities fid with
    | none => exact h
    | some f =>
      by_cases h1 : v.idle_workers < workers
      · simp only [h1, if_true]
        exact h
      · by_cases h2 : f.workers_assigned + workers > f.capacity
        · simp only [h1, if_false, h2, if_true]
          exact h
        · simp only [h1, if_false, h2, if_false]
          unfold conserved at *
          simp only
          rw [sumWorkers_setKey _ _ f _ hl]
          simp only
          linarith [h]
  | unassign fid workers =>
    show conserved (unassign_worker v fid workers).1
    unfold unassign_worker
    cases hl : lookupKey v.facilities fid with
    | none => exact h
    | some f =>
      by_cases h1 : f.workers_assigned < workers
      · simp only [h1, if_true]
        exact h
      · simp only [h1, if_false]
        unfold conserved at *
        simp only
        rw [sumWorkers_setKey _ _ f _ hl]
        simp only
        linarith [h]
  | runRec rid fid times =>
    exact conserved_of_sameExceptInv (run_recipe_shape v rid fid times) h
  | advanceDay =>
    obtain ⟨x1, x2, x3, x4, x5, x6, x7, x8, x9, x10⟩ := advance_day_shape v
    show conserved (advance_day v)
    unfold conserved at *
    rw [x3, x4, x2]
    exact h

/-- C4: starting from any state satisfying worker conservation
(`idle_workers + Σ workers_assigned = population`), any sequence of engine
operations — with any arguments, succeeding or failing — preserves the
equality, so it holds before and after each call of the sequence. -/
theorem worker_conservation (ops : List Op) (v : Village)
    (h : conserved v) : conserved (applyOps v ops) := by
  induction ops generalizing v with
  | nil => exact h
  | cons op rest ih => exact ih (applyOp v op) (conserved_applyOp v op h)

/-- Witness for C4: a concrete mixed call sequence on the sample village
preserves conservation. -/
theorem worker_conservation_witness :
    conserved (applyOps v0
      [Op.assign "sawmill" 1, Op.gather "logs" 2, Op.build "hut",
        Op.unassign "sawmill" 2, Op.runRec "saw" "sawmill" 3,
        Op.advanceDay]) :=
  worker_conservation _ v0 (by decide)

theorem bounds_of_facilities_eq {a b : Village}
    (hf : a.facilities = b.facilities) (h : workersInBounds b) :
    workersInBounds a := by
  intro p hp
  rw [hf] at hp
  exact h p hp

theorem bounds_applyOp (v : Village) (op : Op) (hnn : opNonneg op)
    (hcaps : catalogCapsOK v) (h : workersInBounds v) :
    workersInBounds (applyOp v op) := by
  cases op with
  | gather resource workers =>
    exact bounds_of_facilities_eq (gather_shape v resource workers).2.2.2.1 h
  | build fid =>
    show workersInBounds (build_facility v fid).1
    unfold build_facility
    cases hc : lookupKey v.compound_facilities fid with
    | none => exact h
    | some fdef =>
      by_cases hb : (lookupKey v.facilities fid).isSome = true
      · simp only [hb, if_true]
        exact h
      · have hnone : lookupKey v.facilities fid = none :=
          Option.not_isSome_iff_eq_none.mp (by simpa using hb)
        simp only [hb, Bool.false_eq_true, if_false]
        by_cases hhas : hasAll v.inventory (fdef.inputs.getD []) = true
        · simp only [hhas, if_true]
          intro p hp
          simp only at hp
          rw [setKey_absent _ _ _ hnone] at hp
          rcases List.mem_append.mp hp with h1 | h2
          · exact h p h1
          · have hp2 := List.mem_singleton.mp h2
            rw [hp2]
            exact ⟨le_refl 0, hcaps (fid, fdef) (lookupKey_mem hc)⟩
        · simp only [hhas, Bool.false_eq_true, if_false]
          exact h
  | assign fid workers =>
    show workersInBounds (assign_worker v fid workers).1
    unfold assign_worker
    cases hl : lookupKey v.facilities fid with
    | none => exact h
    | some f =>
      by_cases h1 : v.idle_workers < workers
      · simp only [h1, if_true]
        exact h
      · by_cases h2 : f.workers_assigned + workers > f.capacity
        · simp only [h1, if_false, h2, if_true]
          exact h
        · simp only [h1, if_false, h2, if_false]
          intro p hp
          simp only at hp
          rcases mem_setKey hp with h3 | h4
          · rw [h3]
            have hf := h (fid, f) (lookupKey_mem hl)
            have hw : 0 ≤ workers := hnn
            constructor
            · simp only
              linarith [hf.1]
            · simp only
              linarith [not_lt.mp h2]
          · exact h p h4
  | unassign fid workers =>
    show workersInBounds (unassign_worker v fid workers).1
    unfold unassign_worker
    cases hl : lookupKey v.facilities fid with
    | none => exact h
    | some f =>
      by_cases h1 : f.workers_assigned < workers
      · simp only [h1, if_true]
        exact h
      · simp only [h1, if_false]
        intro p hp
        simp only at hp
        rcases mem_setKey hp with h3 | h4
        · rw [h3]
          have hf := h (fid, f) (lookupKey_mem hl)
          have hw : 0 ≤ workers := hnn
          constructor
          · simp only
            linarith [not_lt.mp h1]
          · simp only
            linarith [hf.2]
        · exact h p h4
  | runRec rid fid times =>
    exact bounds_of_facilities_eq
      (run_recipe_shape v rid fid times).2.2.2.1 h
  | advanceDay =>
    exact bounds_of_facilities_eq (advance_day_shape v).2.2.2.1 h

theorem applyOp_compound (v : Village) (op : Op) :
    (applyOp v op).compound_facilities = v.compound_facilities := by
  cases op with
  | gather resource workers =>
    exact (gather_shape v resource workers).2.2.2.2.2.2.1
  | build fid =>
    show (build_facility v fid).1.compound_facilities = _
    cases hc : lookupKey v.compound_facilities fid with
    | none => simp [build_facility, hc]
    | some fdef =>
      simp only [build_facility, hc]
      split_ifs <;> rfl
  | assign fid workers =>
    show (assign_worker v fid workers).1.compound_facilities = _
    cases hl : lookupKey v.facilities fid with
    | none => simp [assign_worker, hl]
    | some f =>
      simp only [assign_worker, hl]
      split_ifs <;> rfl
  | unassign fid workers =>
    show (unassign_worker v fid workers).1.compound_facilities = _
    cases hl : lookupKey v.facilities fid with
    | none => simp [unassign_worker, hl]
    | some f =>
      simp only [unassign_worker, hl]
      split_ifs <;> rfl
  | runRec rid fid times =>
    exact (run_recipe_shape v rid fid times).2.2.2.2.2.2.1
  | advanceDay => exact (advance_day_shape v).2.2.2.2.2.2.1

/-- C5 (amended): starting from a state in which every built facility
satisfies `0 ≤ workers_assigned ≤ capacity` (and every catalog capacity
is nonnegative, so newly built facilities start in bounds), any sequence
of engine operations whose worker-count arguments are nonnegative keeps
every facility in bounds; moreover `assign_worker` fails when idle
workers are insufficient or capacity would be exceeded, and
`unassign_worker` fails when the current assignment is below the removal
count.  The amendment restricts the claim to nonnegative worker-count
arguments: a negative count slips past both guards and drives
`workers_assigned` outside the bounds. -/
theorem worker_bounds_amended (ops : List Op) (v : Village)
    (hops : ∀ op ∈ ops, opNonneg op) (hcaps : catalogCapsOK v)
    (h : workersInBounds v) :
    workersInBounds (applyOps v ops) ∧
    (∀ fid workers f, lookupKey v.facilities fid = some f →
      v.idle_workers < workers → assign_worker v fid workers = (v, false)) ∧
    (∀ fid workers f, lookupKey v.facilities fid = some f →
      f.workers_assigned + workers > f.capacity →
      assign_worker v fid workers = (v, false)) ∧
    (∀ fid workers f, lookupKey v.facilities fid = some f →
      f.workers_assigned < workers →
      unassign_worker v fid workers = (v, false)) := by
  refine ⟨?_, ?_, ?_, ?_⟩
  · induction ops generalizing v with
    | nil => exact h
    | cons op rest ih =>
      have hcaps2 : catalogCapsOK (applyOp v op) := by
        unfold catalogCapsOK
        rw [applyOp_compound]
        exact hcaps
      exact ih (applyOp v op) (fun o ho => hops o (List.mem_cons_of_mem _ ho))
        hcaps2 (bounds_applyOp v op (hops op (List.mem_cons_self _ _)) hcaps h)
  · intro fid workers f hl hidle
    simp [assign_worker, hl, hidle]
  · intro fid workers f hl hcap
    by_cases hidle : v.idle_workers < workers
    · simp [assign_worker, hl, hidle]
    · simp [assign_worker, hl, hidle, hcap]
  · intro fid workers f hl hlt
    simp [unassign_worker, hl, hlt]

/-- Witness for C5 at the sample village: a nonnegative assignment
sequence keeps every facility within bounds. -/
theorem worker_bounds_amended_witness :
    workersInBounds (applyOps v0 [Op.assign "sawmill" 1,
      Op.unassign "sawmill" 2, Op.build "hut"]) :=
  (worker_bounds_amended [Op.assign "sawmill" 1, Op.unassign "sawmill" 2,
    Op.build "hut"] v0 (by decide) (by decide) (by decide)).1

/-- Counterexample for C5 as stated: assigning -2 workers passes both
guards of `assign_worker` (idle workers are not below -2, and adding -2
does not exceed capacity), succeeds, and leaves the sawmill with
`workers_assigned = -1`, below the claimed lower bound 0. -/
theorem worker_bounds_cex :
    workersInBounds v0 ∧
    (assign_worker v0 "sawmill" (-2)).2 = true ∧
    lookupKey (assign_worker v0 "sawmill" (-2)).1.facilities "sawmill" =
      some { facility_id := "sawmill", capacity := 2,
             workers_assigned := -1, enabled_recipes := ["saw"] } ∧
    ¬ (0 : ℤ) ≤ -1 := by
  decide

/-- C3: `build_facility` returns false and mutates nothing when the
facility is not in the compound-goods catalog, is already built, or some
required input is lacking; on success it consumes every required input
(the checks precede all removals, so consumption is all-or-nothing) and
appends exactly one `Facility` with capacity and enabled-recipe list
copied from the definition; a second call with the same identifier then
fails without further mutation. -/
theorem build_facility_correct (v : Village) (fid : String) :
    (lookupKey v.compound_facilities fid = none →
      build_facility v fid = (v, false)) ∧
    ((lookupKey v.facilities fid).isSome = true →
      build_facility v fid = (v, false)) ∧
    (∀ fdef, lookupKey v.compound_facilities fid = some fdef →
      hasAll v.inventory (fdef.inputs.getD []) = false →
      build_facility v fid = (v, false)) ∧
    (∀ fdef, lookupKey v.compound_facilities fid = some fdef →
      lookupKey v.facilities fid = none →
      hasAll v.inventory (fdef.inputs.getD []) = true →
      nodupKeys (fdef.inputs.getD []) →
      (build_facility v fid).2 = true ∧
      (build_facility v fid).1.facilities = v.facilities ++
        [(fid, Facility.mk fid (fdef.capacity.getD 1) 0
          (fdef.enables_recipes.getD []))] ∧
      (∀ g, (build_facility v fid).1.inventory g =
        v.inventory g - sumFor (fdef.inputs.getD []) g) ∧
      (build_facility v fid).1.day = v.day ∧
      (build_facility v fid).1.population = v.population ∧
      (build_facility v fid).1.idle_workers = v.idle_workers) ∧
    ((build_facility v fid).2 = true →
      build_facility (build_facility v fid).1 fid =
        ((build_facility v fid).1, false)) := by
  refine ⟨?_, ?_, ?_, ?_, ?_⟩
  · intro h
    simp [build_facility, h]
  · intro h
    cases hc : lookupKey v.compound_facilities fid <;>
      simp [build_facility, hc, h]
  · intro fdef hc hhas
    by_cases hb : (lookupKey v.facilities fid).isSome = true
    · simp [build_facility, hc, hb]
    · simp [build_facility, hc, hb, hhas]
  · intro fdef hc hnone hhas hnd
    have hbb : build_facility v fid =
        ({ v with
            inventory := removeAll v.inventory (fdef.inputs.getD []),
            facilities := (setKey v.facilities fid
              (Facility.mk fid (fdef.capacity.getD 1) 0
                (fdef.enables_recipes.getD []))) }, true) := by
      simp [build_facility, hc, hnone, hhas]
    rw [hbb]
    refine ⟨rfl, ?_, ?_, rfl, rfl, rfl⟩
    · exact setKey_absent _ _ _ hnone
    · intro g
      exact removeAll_apply _ _ hnd hhas g
  · intro hsucc
    cases hc : lookupKey v.compound_facilities fid with
    | none =>
      rw [(by simp [build_facility, hc] :
        build_facility v fid = (v, false))] at hsucc
      simp at hsucc
    | some fdef =>
      by_cases hb : (lookupKey v.facilities fid).isSome = true
      · rw [(by simp [build_facility, hc, hb] :
          build_facility v fid = (v, false))] at hsucc
        simp at hsucc
      · have hnone : lookupKey v.facilities fid = none :=
          Option.not_isSome_iff_eq_none.mp (by simpa using hb)
        by_cases hhas : hasAll v.inventory (fdef.inputs.getD []) = true
        · have hbb : build_facility v fid =
              ({ v with
                  inventory := removeAll v.inventory (fdef.inputs.getD []),
                  facilities := (setKey v.facilities fid
                    (Facility.mk fid (fdef.capacity.getD 1) 0
                      (fdef.enables_recipes.getD []))) }, true) := by
            simp [build_facility, hc, hnone, hhas]
          rw [hbb]
          have hc2 : lookupKey
              (build_facility v fid).1.compound_facilities fid = some fdef := by
            rw [hbb]
            exact hc
          have hsome : (lookupKey (setKey v.facilities fid
              (Facility.mk fid (fdef.capacity.getD 1) 0
                (fdef.enables_recipes.getD []))) fid).isSome = true := by
            rw [lookupKey_setKey_self]
            rfl
          simp only [build_facility]
          rw [(by rw [hbb] at hc2; exact hc2 :
            lookupKey ({ v with
              inventory := removeAll v.inventory (fdef.inputs.getD []),
              facilities := (setKey v.facilities fid
                (Facility.mk fid (fdef.capacity.getD 1) 0
                  (fdef.enables_recipes.getD []))) } :
              Village).compound_facilities fid = some fdef)]
          simp [hsome]
        · rw [(by simp [build_facility, hc, hnone, hhas] :
            build_facility v fid = (v, false))] at hsucc
          simp at hsucc

/-- Witness for C3: building the hut from the sample catalog succeeds,
consumes five logs, and a rebuild attempt fails. -/
theorem build_facility_correct_witness :
    (build_facility v0 "hut").2 = true ∧
    (build_facility v0 "hut").1.inventory "logs" =
      v0.inventory "logs" - sumFor [("logs", 5)] "logs" ∧
    build_facility (build_facility v0 "hut").1 "hut" =
      ((build_facility v0 "hut").1, false) := by
  have h4 := (build_facility_correct v0 "hut").2.2.2.1
    { inputs := some [("logs", 5)], capacity := some 3,
      enables_recipes := some ["saw"] }
    (by decide) (by decide) (by decide) (by decide)
  have h5 := (build_facility_correct v0 "hut").2.2.2.2 h4.1
  exact ⟨h4.1, h4.2.2.1 "logs", h5⟩

/-- C7: loading static data is a total function (the embedded loader
cannot raise); an empty data directory yields zero raw goods, zero
produced goods and zero recipes while construction still completes; a
recipe record whose id is absent is skipped (as is one with an empty id,
Python `if not rid`) rather than aborting the load; and every kept record
is normalized to carry all nine fields with the documented defaults. -/
theorem load_game_data_robust :
    ((load_game_data emptyDataDir).raw_goods = [] ∧
      (load_game_data emptyDataDir).produced_goods = [] ∧
      (load_game_data emptyDataDir).compound_facilities = [] ∧
      (load_game_data emptyDataDir).recipes = [] ∧
      (load_game_data emptyDataDir).day = 1) ∧
    (∀ r rest, r.id = none → loadRecipes (r :: rest) = loadRecipes rest) ∧
    (∀ r rest, r.id = some "" → loadRecipes (r :: rest) = loadRecipes rest) ∧
    (∀ r i, r.id = some i → i ≠ "" →
      loadRecipes [r] = [(i, normalizeRecipe r)]) ∧
    (∀ r, (normalizeRecipe r).cycle_time_minutes =
        r.cycle_time_minutes.getD (some 60) ∧
      (normalizeRecipe r).workers_required = r.workers_required.getD 1 ∧
      (normalizeRecipe r).skill_used = r.skill_used.getD "" ∧
      (normalizeRecipe r).min_skill = r.min_skill.getD 0 ∧
      (normalizeRecipe r).waste_chance = r.waste_chance.getD 0 ∧
      (normalizeRecipe r).byproducts = r.byproducts.getD []) := by
  refine ⟨?_, ?_, ?_, ?_, ?_⟩
  · exact ⟨rfl, rfl, rfl, rfl, rfl⟩
  · intro r rest h
    simp [loadRecipes, h]
  · intro r rest h
    simp [loadRecipes, h]
  · intro r i h hne
    simp [loadRecipes, h, hne, setKey]
  · intro r
    exact ⟨rfl, rfl, rfl, rfl, rfl, rfl⟩

/-- Witness for C7: a record with a missing id is dropped, and the
id-only sample record loads to a recipe populated entirely by the
documented defaults. -/
theorem load_game_data_robust_witness :
    loadRecipes [{ rawOnlyId with id := none }, rawOnlyId] =
      [("r1", normalizeRecipe rawOnlyId)] ∧
    normalizeRecipe rawOnlyId = Recipe.mk none [] [] [] (some 60) 1 "" 0 0 := by
  constructor
  · rw [load_game_data_robust.2.1 _ [rawOnlyId] rfl]
    exact load_game_data_robust.2.2.2.1 rawOnlyId "r1" rfl (by decide)
  · rfl

/-- C10: the cycle time `advance_day` divides by is the loader default 60
when the record omitted the field, and the `or 60` fallback 60 when the
stored value is null or zero; it is never zero, so the integer division
in the day advance is well defined for every loadable recipe table. -/
theorem advance_day_cycle_guard :
    (∀ r : RawRecipe, r.cycle_time_minutes = none →
      (normalizeRecipe r).cycle_time_minutes = some 60 ∧
      effectiveCycle (normalizeRecipe r) = 60) ∧
    (∀ rec : Recipe, rec.cycle_time_minutes = none →
      effectiveCycle rec = 60) ∧
    (∀ rec : Recipe, rec.cycle_time_minutes = some 0 →
      effectiveCycle rec = 60) ∧
    (∀ rec : Recipe, effectiveCycle rec ≠ 0) := by
  refine ⟨?_, ?_, ?_, ?_⟩
  · intro r h
    have h1 : (normalizeRecipe r).cycle_time_minutes = some 60 := by
      simp [normalizeRecipe, h]
    exact ⟨h1, by simp [effectiveCycle, h1]⟩
  · intro rec h
    simp [effectiveCycle, h]
  · intro rec h
    simp [effectiveCycle, h]
  · intro rec
    unfold effectiveCycle
    cases rec.cycle_time_minutes with
    | none => norm_num
    | some c =>
      by_cases hc : c = 0
      · simp [hc]
      · simp [hc]

/-- Witness for C10: a recipe whose stored cycle time is zero is run with
the 60-minute fallback. -/
theorem advance_day_cycle_guard_witness :
    effectiveCycle { recipe0 with cycle_time_minutes := some 0 } = 60 ∧
    effectiveCycle recipe0 ≠ 0 :=
  ⟨advance_day_cycle_guard.2.2.1 _ rfl, advance_day_cycle_guard.2.2.2 recipe0⟩

/-- C9: converting a legacy-schema recipe record and loading the result
through the engine's recipe loader yields a fully populated recipe; each
of the nine fields is characterized, so any field the legacy record
omitted lands on its documented default (facility none, mappings empty,
cycle 60, workers 1, empty skill, skill 0, waste 0.0), a legacy
seconds-based cycle time is rounded up to whole minutes, and scaling an
amount for a good absent from the `per_unit_kg` map multiplies by the
fallback factor 1 and appends a warning instead of failing. -/
theorem convert_load_round_trip :
    (∀ (old_id : String) (old : LegacyRecipe)
        (per_kg : List (String × ℚ)), old_id ≠ "" →
      loadRecipes [(convert_recipe old_id old per_kg).1] =
        [(old_id, Recipe.mk old.facility
          (convert_amounts (old.inputs.getD []) per_kg).1
          (convert_amounts (old.outputs.getD []) per_kg).1
          (convert_amounts (old.byproducts.getD []) per_kg).1
          (some (match old.cycle_time_s with
            | some s => ⌈s / 60⌉
            | none => old.cycle_time_minutes.getD 60))
          ((old.labor.or old.workers_required).getD 1)
          ((old.skill_used.or old.skill).getD "")
          (old.min_skill.getD 0)
          (old.waste_chance.getD 0))]) ∧
    (∀ (old_id : String) (per_kg : List (String × ℚ)), old_id ≠ "" →
      loadRecipes [(convert_recipe old_id emptyLegacy per_kg).1] =
        [(old_id, Recipe.mk none [] [] [] (some 60) 1 "" 0 0)]) ∧
    (∀ item amt rest per_kg, lookupKey per_kg item = none →
      (convert_amounts ((item, amt) :: rest) per_kg).1 =
        (item, amt * 1) :: (convert_amounts rest per_kg).1 ∧
      (convert_amounts ((item, amt) :: rest) per_kg).2 =
        ("Unknown good " ++ item) :: (convert_amounts rest per_kg).2) := by
  have hmain : ∀ (old_id : String) (old : LegacyRecipe)
      (per_kg : List (String × ℚ)), old_id ≠ "" →
      loadRecipes [(convert_recipe old_id old per_kg).1] =
        [(old_id, Recipe.mk old.facility
          (convert_amounts (old.inputs.getD []) per_kg).1
          (convert_amounts (old.outputs.getD []) per_kg).1
          (convert_amounts (old.byproducts.getD []) per_kg).1
          (some (match old.cycle_time_s with
            | some s => ⌈s / 60⌉
            | none => old.cycle_time_minutes.getD 60))
          ((old.labor.or old.workers_required).getD 1)
          ((old.skill_used.or old.skill).getD "")
          (old.min_skill.getD 0)
          (old.waste_chance.getD 0))] := by
    intro old_id old per_kg hne
    simp [loadRecipes, convert_recipe, normalizeRecipe, hne, setKey]
  refine ⟨hmain, ?_, ?_⟩
  · intro old_id per_kg hne
    rw [hmain old_id emptyLegacy per_kg hne]
    rfl
  · intro item amt rest per_kg h
    constructor <;> simp [convert_amounts, h]

/-- Witness for C9: a legacy record with a 90-second cycle, labor 3, one
known and one unknown input good round-trips to cycle 2 minutes, workers
3, scaled inputs, and defaults elsewhere. -/
theorem convert_load_round_trip_witness :
    loadRecipes [(convert_recipe "mill" legacyMill [("logs", 3/2)]).1] =
      [("mill", Recipe.mk none [("logs", 3), ("mystery", 4)] [] []
        (some 2) 3 "" 0 0)] ∧
    (convert_amounts [("mystery", 4)] [("logs", 3/2)]).2 =
      ["Unknown good mystery"] := by
  constructor
  · rw [convert_load_round_trip.1 "mill" legacyMill [("logs", 3/2)]
      (by decide)]
    norm_num [legacyMill, convert_amounts, lookupKey]
    constructor
    · decide
    · rw [Int.ceil_eq_iff]
      norm_num
  · have h := (convert_load_round_trip.2.2 "mystery" 4 [] [("logs", 3/2)]
      (by decide)).2
    rw [h]
    rfl

theorem foldlFilterEq {α β : Type} (p : α → Bool) (f : β → α → β)
    (l : List α) (b : β) :
    (l.filter p).foldl f b =
      l.foldl (fun acc x => if p x then f acc x else acc) b := by
  induction l generalizing b with
  | nil => rfl
  | cons x rest ih =>
    cases hp : p x <;> simp [List.filter_cons, hp, ih]

theorem foldl_congr_mem {α β : Type} (f g : β → α → β) (l : List α)
    (h : ∀ x ∈ l, ∀ b, f b x = g b x) : ∀ b, l.foldl f b = l.foldl g b := by
  induction l with
  | nil => intro b; rfl
  | cons x rest ih =>
    intro b
    simp only [List.foldl_cons]
    rw [h x (List.mem_cons_self _ _) b]
    exact ih (fun y hy b2 => h y (List.mem_cons_of_mem _ hy) b2) _

/-- C2: provided every recipe carries a nonzero numeric cycle time (so
that the claim's formula `floor(480 / cycle_time_minutes)` is defined),
`advance_day` coincides with the specification-side fold that gives every
pair of a worked facility and a matching recipe exactly
`workers_assigned * max(1, floor(480 / cycle_time_minutes))` attempted
runs — each matching recipe independently receives the full budget — and
it increments the day by exactly one while leaving population,
idle workers, and every facility assignment unchanged. -/
theorem advance_day_correct (v : Village)
    (hcyc : ∀ q ∈ v.recipes, ∃ c : ℤ,
      q.2.cycle_time_minutes = some c ∧ c ≠ 0) :
    advance_day v = advanceDaySpec v ∧
    (advance_day v).day = v.day + 1 ∧
    (advance_day v).population = v.population ∧
    (advance_day v).idle_workers = v.idle_workers ∧
    (advance_day v).facilities = v.facilities := by
  have hprod : advanceProduction v = advanceProductionSpec v := by
    unfold advanceProduction advanceProductionSpec
    rw [foldlFilterEq]
    apply foldl_congr_mem
    intro p hp b
    by_cases hw : p.2.workers_assigned > 0
    · simp only [decide_eq_true_eq, hw, if_true]
      rw [foldlFilterEq]
      apply foldl_congr_mem
      intro q hq b2
      by_cases hm : q.2.facility = some p.1
      · simp only [decide_eq_true_eq, hm, if_true]
        obtain ⟨c, hc, hc0⟩ := hcyc q hq
        have hcyq : effectiveCycle q.2 = c := by
          simp [effectiveCycle, hc, hc0]
        have hgetD : q.2.cycle_time_minutes.getD 60 = c := by
          rw [hc]
          rfl
        have h860 : (8 * 60 : ℤ) = 480 := by norm_num
        simp only [hcyq, hgetD, h860]
        have hruns : p.2.workers_assigned * max 1 (Int.fdiv 480 c) > 0 :=
          mul_pos hw (lt_of_lt_of_le one_pos (le_max_left 1 _))
        rw [if_pos hruns]
      · simp [decide_eq_true_eq, hm]
    · simp [decide_eq_true_eq, hw]
  refine ⟨?_, (advance_day_shape v).1, (advance_day_shape v).2.1,
    (advance_day_shape v).2.2.1, (advance_day_shape v).2.2.2.1⟩
  unfold advance_day advanceDaySpec
  rw [hprod]

/-- Witness for C2 at the sample village: the single 60-minute recipe is
in scope of the cycle hypothesis, and the day advances by one. -/
theorem advance_day_correct_witness :
    advance_day v0 = advanceDaySpec v0 ∧
    (advance_day v0).day = v0.day + 1 := by
  have hcyc : ∀ q ∈ v0.recipes,
      ∃ c : ℤ, q.2.cycle_time_minutes = some c ∧ c ≠ 0 := by
    intro q hq
    have hq2 : q = ("saw", recipe0) := by simpa [v0] using hq
    rw [hq2]
    exact ⟨60, rfl, by norm_num⟩
  exact ⟨(advance_day_correct v0 hcyc).1, (advance_day_correct v0 hcyc).2.1⟩
